import Mathlib

/-
Verification of zsnapmgr (a ZFS snapshot/backup manager written in Rust)
against its natural-language specification.

The development shallowly embeds the relevant parts of the source:

  * src/backups.rs   — the Backups map (BTreeMap keyed by volume) and its
                       insert / into_values operations;
  * src/main.rs      — gather_volumes: artifact-filename parsing and the
                       two reconciliation passes;
  * src/hash_stream.rs — HashingWrite and write_file_and_sidecar;
  * src/zfs.rs       — the stderr telemetry loop and the commit/abort logic
                       of Zfs::send;
  * src/inheritable_pipe.rs — the passphrase pipe construction;
  * src/lib.rs       — date helpers and ZSnapMgr::snapshot_automanage.

Strings are modelled as lists of characters (Rust String comparison is
bytewise lexicographic; on the ASCII data this program handles that
coincides with the lexicographic order on character lists).  Fallible or
panicking code is modelled with Option/Except.  File-system effects of
Zfs::send are modelled as boolean fields of an outcome record.
-/

namespace ZSnap

/-- Character-list strings; Rust `String`/`&str` values are embedded as `CStr`. -/
abbrev CStr := List Char

/-- Boolean chain predicate (used instead of List.Chain' so that concrete
hypotheses evaluate by `decide`). -/
def chainB (p : α → α → Bool) : List α → Bool
  | [] => true
  | [_] => true
  | a :: b :: rest => p a b && chainB p (b :: rest)

/-- Boolean no-duplicates check. -/
def nodupB [DecidableEq α] : List α → Bool
  | [] => true
  | a :: rest => !(rest.contains a) && nodupB rest

/-- Split a character-list string at the first occurrence of `c`:
Rust `s.splitn(2, c)` yields two parts exactly when this returns `some`.
The separator is contained in neither part. -/
def splitFirst (c : Char) : CStr → Option (CStr × CStr)
  | [] => none
  | a :: rest =>
    if a = c then some ([], rest)
    else match splitFirst c rest with
      | some (l, r) => some (a :: l, r)
      | none => none

/-- Rust `s.splitn(2, c).last().unwrap()`: everything after the first `c`,
or the whole string when `c` does not occur. -/
def afterFirst (c : Char) (s : CStr) : CStr :=
  match splitFirst c s with
  | some (_, r) => r
  | none => s

/-- Rust `s.split(c)`: split at every occurrence of `c` (an empty string
yields one empty part, like Rust's `split`). -/
def splitEvery (c : Char) : CStr → List CStr
  | [] => [[]]
  | a :: rest =>
    if a = c then [] :: splitEvery c rest
    else match splitEvery c rest with
      | l :: ls => (a :: l) :: ls
      | [] => [[a]]

/-- First index at which the pattern `pat` occurs in `s`
(Rust `s.find(pat)`, with character rather than byte indices). -/
def findSub (pat : CStr) : CStr → Option Nat
  | [] => if pat = [] then some 0 else none
  | a :: rest =>
    if pat.isPrefixOf (a :: rest) then some 0
    else (findSub pat rest).map (· + 1)

/-- Decimal-digit parse of a nonempty all-digit string. -/
def parseDigits : CStr → Option Nat
  | [] => none
  | l => go l 0
where
  go : CStr → Nat → Option Nat
    | [], acc => some acc
    | c :: rest, acc =>
      if c.isDigit then go rest (acc * 10 + (c.toNat - '0'.toNat)) else none

/-- Rust `str::parse::<u64>`: optional leading '+', at least one digit,
value below 2^64. -/
def parseU64 (s : CStr) : Option Nat :=
  let s' := match s with
    | '+' :: rest => rest
    | _ => s
  match parseDigits s' with
  | some v => if v < 2 ^ 64 then some v else none
  | none => none

/-- Rust `str::parse::<u32>`: optional leading '+', at least one digit,
value below 2^32. -/
def parseU32 (s : CStr) : Option Nat :=
  let s' := match s with
    | '+' :: rest => rest
    | _ => s
  match parseDigits s' with
  | some v => if v < 2 ^ 32 then some v else none
  | none => none

/-- Rust `str::parse::<i32>`: optional sign, at least one digit,
value within i32 bounds. -/
def parseI32 (s : CStr) : Option Int :=
  match s with
  | '-' :: rest =>
    match parseDigits rest with
    | some v => if (v : Int) ≤ 2 ^ 31 then some (-(v : Int)) else none
    | none => none
  | '+' :: rest =>
    match parseDigits rest with
    | some v => if v < 2 ^ 31 then some (v : Int) else none
    | none => none
  | _ =>
    match parseDigits s with
    | some v => if v < 2 ^ 31 then some (v : Int) else none
    | none => none

/-- The strict date regex of main.rs line 175: `^\d{4}-\d{2}-\d{2}$`. -/
def isDateShape : CStr → Bool
  | [y1, y2, y3, y4, s1, m1, m2, s2, d1, d2] =>
    y1.isDigit && y2.isDigit && y3.isDigit && y4.isDigit &&
    s1 = '-' && m1.isDigit && m2.isDigit && s2 = '-' && d1.isDigit && d2.isDigit
  | _ => false

/-! ## src/backups.rs — the Backups map -/

/-- backups.rs: `struct Backup`. -/
structure Backup where
  filename_base : CStr
  volume : CStr
  start_snapshot : Option CStr
  end_snapshot : Option CStr
deriving DecidableEq

/-- backups.rs: `Backups` is a `BTreeMap<String, Backup>` keyed by volume,
embedded as an association list with strictly increasing keys. -/
abbrev Backups := List (CStr × Backup)

/-- backups.rs lines 44-52, the `Entry::Occupied` arm of `Backups::insert`:
the stored entry's baseline and filename are replaced exactly when the new
start snapshot is `Some` and is strictly greater than the stored one (or the
stored one is `None`). -/
def updateExisting (b : Backup) (filename_base : CStr) (start_snapshot : Option CStr) : Backup :=
  match start_snapshot, b.start_snapshot with
  | some s, none =>
    { b with start_snapshot := some s, filename_base := filename_base }
  | some s, some s0 =>
    if s0 < s then { b with start_snapshot := some s, filename_base := filename_base } else b
  | none, _ => b

/-- backups.rs lines 39-63: `Backups::insert`.  The BTreeMap entry API is
embedded as ordered insertion into the key-sorted association list. -/
def Backups.insertB (filename_base volume : CStr) (start_snapshot : Option CStr) :
    Backups → Backups
  | [] => [(volume, ⟨filename_base, volume, start_snapshot, none⟩)]
  | (k, b) :: rest =>
    if volume = k then (k, updateExisting b filename_base start_snapshot) :: rest
    else if volume < k then
      (volume, ⟨filename_base, volume, start_snapshot, none⟩) :: (k, b) :: rest
    else (k, b) :: Backups.insertB filename_base volume start_snapshot rest

/-- backups.rs lines 66-74: `Backups::into_values` — the values in key order,
keeping only entries whose `end_snapshot` is `Some`. -/
def Backups.into_values (bs : Backups) : List Backup :=
  (bs.map Prod.snd).filter (fun b => b.end_snapshot.isSome)

/-- Lookup by volume (first entry with the given key). -/
def Backups.lookupB : Backups → CStr → Option Backup
  | [], _ => none
  | (k, b) :: rest, vol => if k = vol then some b else Backups.lookupB rest vol

/-! ## src/main.rs — gather_volumes, pass 1 (artifact-filename parsing) -/

/-- main.rs line 140: `parts[0].replace("_", "/")`. -/
def underscoreToSlash (s : CStr) : CStr :=
  s.map (fun ch => if ch = '_' then '/' else ch)

/-- main.rs lines 132-173: processing of one file name inside the
`for file_path in file_iter` loop.  Yields the `(filename_base, volume,
start_snapshot)` triple passed to `Backups::insert`, or `none` when the file
is skipped (no ".zfs" marker, a "_partial" file, a malformed name, or an
ambiguous / unmatched volume).  The `volumes.binary_search` call of the
source is performed on the sorted volume list and is embedded as list
membership. -/
def parseFile (volumes : List CStr) (file : CStr) : Option (CStr × CStr × CStr) :=
  match findSub ".zfs".toList file with
  | none => none
  | some zfsPos =>
    if "_partial".toList.isSuffixOf file then none
    else
      match splitFirst '@' (file.take zfsPos) with
      | none => none
      | some (p0, backupSnap) =>
        if volumes.contains (underscoreToSlash p0) then
          some (p0, underscoreToSlash p0, backupSnap)
        else
          match volumes.filter (fun vol => ('/' :: underscoreToSlash p0).isSuffixOf vol) with
          | [v] => some (underscoreToSlash p0, v, backupSnap)
          | _ => none

/-- One iteration of the `for file_path in file_iter` loop of main.rs:
insert the parsed triple, or leave the map unchanged for a skipped file. -/
def pass1Step (volumes : List CStr) (acc : Backups) (file : CStr) : Backups :=
  match parseFile volumes file with
  | some (fb, vol, snap) => Backups.insertB fb vol (some snap) acc
  | none => acc

/-- main.rs lines 132-173: the whole first pass of `gather_volumes` — fold the
per-file inserts over the empty `Backups`. -/
def gatherPass1 (volumes : List CStr) (files : List CStr) : Backups :=
  files.foldl (pass1Step volumes) []

/-- The `(filename_base, label)` pairs that pass 1 feeds to `Backups::insert`
for a given volume, in file order. -/
def insertsFor (volumes : List CStr) (files : List CStr) (vol : CStr) :
    List (CStr × CStr) :=
  files.filterMap (fun file =>
    match parseFile volumes file with
    | some (fb, v, snap) => if v = vol then some (fb, snap) else none
    | none => none)

/-- The retention rule of `Backups::insert` folded over a nonempty insert
sequence: a later pair replaces the current one exactly when its label is
strictly greater. -/
def pickGo (best : CStr × CStr) : List (CStr × CStr) → CStr × CStr
  | [] => best
  | (f, l) :: rest => pickGo (if best.2 < l then (f, l) else best) rest

/-- The `(filename_base, label)` pair retained by `Backups::insert` over a
sequence of inserts for one volume: the first pair whose label attains the
maximum. -/
def pickFirstMax : List (CStr × CStr) → Option (CStr × CStr)
  | [] => none
  | p :: rest => some (pickGo p rest)

/-- The fresh `Backup` built for a `(filename_base, label)` pair of a volume
(the `Entry::Vacant` arm of `Backups::insert`, pass 1 always passing
`Some(label)` and leaving `end_snapshot` as `None`). -/
def mkBackup (vol : CStr) (p : CStr × CStr) : Backup :=
  ⟨p.1, vol, some p.2, none⟩

/-! ### Lemmas about pass 1 -/

theorem updateExisting_mkBackup (vol : CStr) (best : CStr × CStr) (f l : CStr) :
    updateExisting (mkBackup vol best) f (some l) =
      mkBackup vol (if best.2 < l then (f, l) else best) := by
  cases best with
  | mk f0 l0 =>
    simp only [mkBackup, updateExisting]
    split <;> rfl

/-- Keys strictly below `vol` everywhere means lookup fails. -/
theorem lookupB_eq_none_of_forall_ne (bs : Backups) (vol : CStr)
    (h : ∀ kv ∈ bs, kv.1 ≠ vol) : Backups.lookupB bs vol = none := by
  induction bs with
  | nil => rfl
  | cons kv rest ih =>
    cases kv with
    | mk k b =>
      simp only [Backups.lookupB]
      rw [if_neg (h (k, b) (by simp))]
      exact ih (fun kv hm => h kv (by simp [hm]))

/-- `insertB` preserves the strictly-increasing-keys invariant. -/
theorem insertB_pairwise (fb vol : CStr) (ss : Option CStr) (bs : Backups)
    (h : (bs.map Prod.fst).Pairwise (· < ·)) :
    ((Backups.insertB fb vol ss bs).map Prod.fst).Pairwise (· < ·) := by
  induction bs with
  | nil => simp [Backups.insertB]
  | cons kv rest ih =>
    cases kv with
    | mk k b =>
      simp only [List.map_cons, List.pairwise_cons] at h
      obtain ⟨hk, hrest⟩ := h
      by_cases h1 : vol = k
      · subst h1
        simp only [Backups.insertB, if_pos rfl, if_true, eq_self_iff_true]
        simp only [List.map_cons, List.pairwise_cons]
        exact ⟨hk, hrest⟩
      · simp only [Backups.insertB, if_neg h1]
        by_cases h2 : vol < k
        · simp only [if_pos h2]
          simp only [List.map_cons, List.pairwise_cons]
          refine ⟨?_, hk, hrest⟩
          intro a ha
          simp only [List.mem_cons] at ha
          rcases ha with rfl | ha
          · exact h2
          · exact lt_trans h2 (hk a ha)
        · simp only [if_neg h2]
          have hkv : k < vol := by
            rcases lt_trichotomy vol k with hlt | heq | hgt
            · exact absurd hlt h2
            · exact absurd heq h1
            · exact hgt
          simp only [List.map_cons, List.pairwise_cons]
          constructor
          · intro a ha
            -- every key of `insertB rest` is either `vol` or a key of `rest`
            have hmem : ∀ (r : Backups) (a : CStr),
                a ∈ (Backups.insertB fb vol ss r).map Prod.fst →
                a = vol ∨ a ∈ r.map Prod.fst := by
              intro r
              induction r with
              | nil =>
                intro a ha
                simp only [Backups.insertB, List.map_cons, List.map_nil,
                  List.mem_cons, List.not_mem_nil, or_false] at ha
                left; exact ha
              | cons kv' rest' ih' =>
                cases kv' with
                | mk k' b' =>
                  intro a ha
                  simp only [Backups.insertB] at ha
                  by_cases e1 : vol = k'
                  · rw [if_pos e1] at ha
                    simp only [List.map_cons, List.mem_cons] at ha
                    simp only [List.map_cons, List.mem_cons]
                    rcases ha with rfl | ha
                    · right; left; rfl
                    · right; right; exact ha
                  · rw [if_neg e1] at ha
                    by_cases e2 : vol < k'
                    · rw [if_pos e2] at ha
                      simp only [List.map_cons, List.mem_cons] at ha
                      simp only [List.map_cons, List.mem_cons]
                      rcases ha with rfl | rfl | ha
                      · left; rfl
                      · right; left; rfl
                      · right; right; exact ha
                    · rw [if_neg e2] at ha
                      simp only [List.map_cons, List.mem_cons] at ha
                      simp only [List.map_cons, List.mem_cons]
                      rcases ha with rfl | ha
                      · right; left; rfl
                      · rcases ih' a ha with h | h
                        · left; exact h
                        · right; right; exact h
            rcases hmem rest a ha with rfl | hmemr
            · exact hkv
            · exact hk a hmemr
          · exact ih hrest

/-- Inserting for one volume does not change the lookup of another. -/
theorem lookupB_insertB_ne (fb vol : CStr) (ss : Option CStr) (bs : Backups)
    (vol' : CStr) (h : vol' ≠ vol) :
    Backups.lookupB (Backups.insertB fb vol ss bs) vol' = Backups.lookupB bs vol' := by
  have hne : vol ≠ vol' := Ne.symm h
  induction bs with
  | nil => simp [Backups.insertB, Backups.lookupB, hne]
  | cons kv rest ih =>
    cases kv with
    | mk k b =>
      simp only [Backups.insertB]
      by_cases h1 : vol = k
      · subst h1
        simp [Backups.lookupB, hne]
      · rw [if_neg h1]
        by_cases h2 : vol < k
        · rw [if_pos h2]
          simp only [Backups.lookupB]
          rw [if_neg hne]
        · rw [if_neg h2]
          simp only [Backups.lookupB]
          by_cases h3 : k = vol'
          · rw [if_pos h3, if_pos h3]
          · rw [if_neg h3, if_neg h3]
            exact ih

/-- Effect of `insertB` on the lookup of the inserted volume (needs the
sorted-keys invariant, which the real BTreeMap maintains). -/
theorem lookupB_insertB_self (fb vol : CStr) (ss : Option CStr) (bs : Backups)
    (hs : (bs.map Prod.fst).Pairwise (· < ·)) :
    Backups.lookupB (Backups.insertB fb vol ss bs) vol =
      some (match Backups.lookupB bs vol with
            | none => ⟨fb, vol, ss, none⟩
            | some b => updateExisting b fb ss) := by
  induction bs with
  | nil => simp [Backups.insertB, Backups.lookupB]
  | cons kv rest ih =>
    cases kv with
    | mk k b =>
      simp only [List.map_cons, List.pairwise_cons] at hs
      obtain ⟨hk, hrest⟩ := hs
      simp only [Backups.insertB]
      by_cases h1 : vol = k
      · subst h1
        rw [if_pos rfl]
        simp [Backups.lookupB]
      · have hkv : k ≠ vol := fun hh => h1 hh.symm
        rw [if_neg h1]
        by_cases h2 : vol < k
        · rw [if_pos h2]
          simp only [Backups.lookupB]
          have hnone : Backups.lookupB rest vol = none := by
            apply lookupB_eq_none_of_forall_ne
            intro kv hm hkveq
            have hmem : kv.1 ∈ rest.map Prod.fst := List.mem_map_of_mem Prod.fst hm
            have := hk kv.1 hmem
            rw [hkveq] at this
            exact absurd (lt_trans h2 this) (lt_irrefl vol)
          simp [hkv, hnone]
        · rw [if_neg h2]
          simp only [Backups.lookupB]
          rw [if_neg hkv, if_neg hkv]
          exact ih hrest

/-- The per-volume effect of a sequence of `Backups::insert` calls (all with
`Some` start snapshots, as in pass 1), starting from an optional existing
entry. -/
def combineInserts (vol : CStr) : Option Backup → List (CStr × CStr) → Option Backup
  | ob, [] => ob
  | ob, (f, l) :: rest =>
    combineInserts vol
      (some (match ob with
             | none => mkBackup vol (f, l)
             | some b => updateExisting b f (some l)))
      rest

theorem combineInserts_some_mk (vol : CStr) :
    ∀ (ps : List (CStr × CStr)) (best : CStr × CStr),
      combineInserts vol (some (mkBackup vol best)) ps =
        some (mkBackup vol (pickGo best ps)) := by
  intro ps
  induction ps with
  | nil => intro best; rfl
  | cons p rest ih =>
    intro best
    cases p with
    | mk f l =>
      simp only [combineInserts, pickGo]
      rw [updateExisting_mkBackup]
      exact ih _

theorem combineInserts_none (vol : CStr) (ps : List (CStr × CStr)) :
    combineInserts vol none ps = (pickFirstMax ps).map (mkBackup vol) := by
  cases ps with
  | nil => rfl
  | cons p rest =>
    cases p with
    | mk f l =>
      simp only [combineInserts, pickFirstMax, Option.map_some]
      exact combineInserts_some_mk vol rest (f, l)

theorem gatherPass1_loop (volumes : List CStr) :
    ∀ (files : List CStr) (acc : Backups),
      (acc.map Prod.fst).Pairwise (· < ·) →
      ∀ vol,
        Backups.lookupB (files.foldl (pass1Step volumes) acc) vol =
          combineInserts vol (Backups.lookupB acc vol) (insertsFor volumes files vol) := by
  intro files
  induction files with
  | nil => intro acc hs vol; rfl
  | cons file fs ih =>
    intro acc hs vol
    simp only [List.foldl_cons]
    cases hp : parseFile volumes file with
    | none =>
      have he : insertsFor volumes (file :: fs) vol = insertsFor volumes fs vol := by
        simp [insertsFor, List.filterMap_cons, hp]
      rw [he]
      have hstep : pass1Step volumes acc file = acc := by
        simp [pass1Step, hp]
      rw [hstep]
      exact ih acc hs vol
    | some t =>
      obtain ⟨fb, v, snap⟩ := t
      have hstep : pass1Step volumes acc file = Backups.insertB fb v (some snap) acc := by
        simp [pass1Step, hp]
      rw [hstep]
      have hs' := insertB_pairwise fb v (some snap) acc hs
      by_cases hv : v = vol
      · subst hv
        have he : insertsFor volumes (file :: fs) v = (fb, snap) :: insertsFor volumes fs v := by
          simp [insertsFor, List.filterMap_cons, hp]
        rw [he, ih _ hs' v, lookupB_insertB_self fb v (some snap) acc hs]
        rfl
      · have he : insertsFor volumes (file :: fs) vol = insertsFor volumes fs vol := by
          simp [insertsFor, List.filterMap_cons, hp, hv]
        rw [he, ih _ hs' vol, lookupB_insertB_ne fb v (some snap) acc vol (Ne.symm hv)]

theorem gatherPass1_sorted (volumes : List CStr) (files : List CStr) :
    ((gatherPass1 volumes files).map Prod.fst).Pairwise (· < ·) := by
  suffices h : ∀ (fs : List CStr) (acc : Backups),
      (acc.map Prod.fst).Pairwise (· < ·) →
      ((fs.foldl (pass1Step volumes) acc).map Prod.fst).Pairwise (· < ·) by
    exact h files [] (by simp)
  intro fs
  induction fs with
  | nil => intro acc hs; exact hs
  | cons f rest ih =>
    intro acc hs
    simp only [List.foldl_cons]
    apply ih
    cases hp : parseFile volumes f with
    | none => simp only [pass1Step, hp]; exact hs
    | some t =>
      obtain ⟨fb, v, snap⟩ := t
      simp only [pass1Step, hp]
      exact insertB_pairwise fb v (some snap) acc hs

/-- `insertB` preserves any pointwise entry property that holds for fresh
entries and is preserved by `updateExisting`. -/
theorem insertB_forall (P : CStr × Backup → Prop) (fb vol : CStr) (ss : Option CStr)
    (bs : Backups)
    (hfresh : P (vol, ⟨fb, vol, ss, none⟩))
    (hupd : ∀ k b, P (k, b) → P (k, updateExisting b fb ss))
    (h : ∀ kv ∈ bs, P kv) :
    ∀ kv ∈ Backups.insertB fb vol ss bs, P kv := by
  induction bs with
  | nil =>
    intro kv hm
    simp only [Backups.insertB, List.mem_singleton] at hm
    subst hm; exact hfresh
  | cons kv0 rest ih =>
    cases kv0 with
    | mk k b =>
      intro kv hm
      simp only [Backups.insertB] at hm
      by_cases h1 : vol = k
      · rw [if_pos h1] at hm
        simp only [List.mem_cons] at hm
        rcases hm with rfl | hm
        · exact hupd k b (h (k, b) (by simp))
        · exact h kv (by simp [hm])
      · rw [if_neg h1] at hm
        by_cases h2 : vol < k
        · rw [if_pos h2] at hm
          simp only [List.mem_cons] at hm
          rcases hm with rfl | rfl | hm
          · exact hfresh
          · exact h (k, b) (by simp)
          · exact h kv (by simp [hm])
        · rw [if_neg h2] at hm
          simp only [List.mem_cons] at hm
          rcases hm with rfl | hm
          · exact h (k, b) (by simp)
          · exact ih (fun kv h' => h kv (by simp [h'])) kv hm

theorem updateExisting_volume (b : Backup) (fb : CStr) (ss : Option CStr) :
    (updateExisting b fb ss).volume = b.volume := by
  unfold updateExisting
  rcases ss with _ | s
  · rfl
  · rcases hb : b.start_snapshot with _ | s0
    · rfl
    · dsimp only
      split <;> rfl

theorem updateExisting_end (b : Backup) (fb : CStr) (ss : Option CStr) :
    (updateExisting b fb ss).end_snapshot = b.end_snapshot := by
  unfold updateExisting
  rcases ss with _ | s
  · rfl
  · rcases hb : b.start_snapshot with _ | s0
    · rfl
    · dsimp only
      split <;> rfl

/-- Every entry of pass 1 is keyed by its own volume and has no end snapshot
yet. -/
theorem gatherPass1_entries (volumes : List CStr) (files : List CStr) :
    ∀ kv ∈ gatherPass1 volumes files, kv.2.volume = kv.1 ∧ kv.2.end_snapshot = none := by
  suffices h : ∀ (fs : List CStr) (acc : Backups),
      (∀ kv ∈ acc, kv.2.volume = kv.1 ∧ kv.2.end_snapshot = none) →
      ∀ kv ∈ fs.foldl (pass1Step volumes) acc, kv.2.volume = kv.1 ∧ kv.2.end_snapshot = none by
    exact h files [] (by simp)
  intro fs
  induction fs with
  | nil => intro acc hacc; exact hacc
  | cons f rest ih =>
    intro acc hacc
    simp only [List.foldl_cons]
    apply ih
    cases hp : parseFile volumes f with
    | none => simp only [pass1Step, hp]; exact hacc
    | some t =>
      obtain ⟨fb, v, snap⟩ := t
      simp only [pass1Step, hp]
      apply insertB_forall
      · exact ⟨rfl, rfl⟩
      · intro k b hb
        exact ⟨(updateExisting_volume b fb (some snap)).trans hb.1,
               (updateExisting_end b fb (some snap)).trans hb.2⟩
      · exact hacc

theorem pickGo_le (ps : List (CStr × CStr)) :
    ∀ best : CStr × CStr,
      best.2 ≤ (pickGo best ps).2 ∧ ∀ p ∈ ps, p.2 ≤ (pickGo best ps).2 := by
  induction ps with
  | nil => intro best; exact ⟨le_refl _, by simp⟩
  | cons q rest ih =>
    intro best
    cases q with
    | mk f l =>
      simp only [pickGo]
      by_cases hl : best.2 < l
      · rw [if_pos hl]
        obtain ⟨h1, h2⟩ := ih (f, l)
        refine ⟨le_trans (le_of_lt hl) h1, ?_⟩
        intro p hp
        simp only [List.mem_cons] at hp
        rcases hp with rfl | hp
        · exact h1
        · exact h2 p hp
      · rw [if_neg hl]
        obtain ⟨h1, h2⟩ := ih best
        refine ⟨h1, ?_⟩
        intro p hp
        simp only [List.mem_cons] at hp
        rcases hp with rfl | hp
        · exact le_trans (le_of_not_lt hl) h1
        · exact h2 p hp

/-- C1: in a reconciliation pass over any artifact file list, pass 1 produces
at most one candidate per volume (the map keys are distinct, each entry is
keyed by its own volume), the entry retained for a volume is exactly the
fold of the strict-override rule over that volume's files in order (a later
file replaces the baseline only if its label is strictly greater, so the
first file attaining the maximal label wins), and the retained start
snapshot's label is greater than or equal to every label inserted for the
volume. -/
theorem gather_volumes_one_candidate_per_volume (volumes files : List CStr) :
    ((gatherPass1 volumes files).map Prod.fst).Nodup ∧
    (∀ kv ∈ gatherPass1 volumes files, kv.2.volume = kv.1) ∧
    (∀ vol, Backups.lookupB (gatherPass1 volumes files) vol =
      (pickFirstMax (insertsFor volumes files vol)).map (mkBackup vol)) ∧
    (∀ vol b, Backups.lookupB (gatherPass1 volumes files) vol = some b →
      ∃ lab, b.start_snapshot = some lab ∧
        ∀ p ∈ insertsFor volumes files vol, p.2 ≤ lab) := by
  refine ⟨?_, ?_, ?_, ?_⟩
  · exact (gatherPass1_sorted volumes files).imp ne_of_lt
  · intro kv hm
    exact (gatherPass1_entries volumes files kv hm).1
  · intro vol
    have h := gatherPass1_loop volumes files [] (by simp) vol
    rw [show Backups.lookupB [] vol = none from rfl, combineInserts_none] at h
    exact h
  · intro vol b hb
    have hl := gatherPass1_loop volumes files [] (by simp) vol
    rw [show Backups.lookupB [] vol = none from rfl, combineInserts_none] at hl
    rw [show (List.foldl (pass1Step volumes) [] files) = gatherPass1 volumes files from rfl,
      hb] at hl
    cases hps : insertsFor volumes files vol with
    | nil => rw [hps] at hl; simp [pickFirstMax] at hl
    | cons p rest =>
      rw [hps] at hl
      simp only [pickFirstMax, Option.map_some] at hl
      refine ⟨(pickGo p rest).2, ?_, ?_⟩
      · have hb2 : b = mkBackup vol (pickGo p rest) := by
          simpa using hl
        rw [hb2]; rfl
      · intro q hq
        simp only [List.mem_cons] at hq
        obtain ⟨h1, h2⟩ := pickGo_le rest p
        rcases hq with rfl | hq
        · exact h1
        · exact h2 q hq

/-! ## src/main.rs — gather_volumes, pass 2 (latest snapshot / baseline check) -/

/-- The filter of main.rs lines 180-185: a snapshot string belongs to the
volume and carries a strict `YYYY-MM-DD` label. -/
def isVolumeDateSnap (vol snap : CStr) : Bool :=
  (vol ++ ['@']).isPrefixOf snap && isDateShape (snap.drop (vol ++ ['@']).length)

/-- main.rs lines 179-186: `volume_snaps` — the volume's date-labelled
snapshots, sorted. -/
def volumeSnapsSorted (snapshots : List CStr) (vol : CStr) : List CStr :=
  List.insertionSort (· ≤ ·) (snapshots.filter (isVolumeDateSnap vol))

/-- The date-shaped labels of a volume's snapshots (the strings after the
`volume@` prefix). -/
def volumeDateLabels (snapshots : List CStr) (vol : CStr) : List CStr :=
  (snapshots.filter (isVolumeDateSnap vol)).map (fun snap => snap.drop (vol ++ ['@']).length)

/-- main.rs lines 188-197: clear `start_snapshot` when the recorded baseline
is no longer among the volume's (date-labelled, sorted) snapshots.  The
source's `binary_search` over the just-sorted list is embedded as
`contains`. -/
def clearStart (snapshots : List CStr) (b : Backup) : Backup :=
  match b.start_snapshot with
  | some ss =>
    if (volumeSnapsSorted snapshots b.volume).contains ((b.volume ++ ['@']) ++ ss) then b
    else { b with start_snapshot := none }
  | none => b

/-- main.rs lines 178-209: the body of the second `for backup in
backups.iter_mut()` loop for one candidate.  `volume_snaps.last().unwrap()`
panics when the volume has no date-labelled snapshot; that is the `none`
result. -/
def updateBackup (snapshots : List CStr) (b0 : Backup) : Option Backup :=
  match (volumeSnapsSorted snapshots b0.volume).getLast? with
  | none => none
  | some lastFull =>
    if (clearStart snapshots b0).start_snapshot ≠ some (afterFirst '@' lastFull) then
      some { clearStart snapshots b0 with end_snapshot := some (afterFirst '@' lastFull) }
    else if (clearStart snapshots b0).start_snapshot.isSome then
      some { clearStart snapshots b0 with end_snapshot := none }
    else
      some (clearStart snapshots b0)

/-- Option-valued map: `none` as soon as one element maps to `none`
(a panic inside the Rust loop aborts the whole pass). -/
def mapOption (f : α → Option β) : List α → Option (List β)
  | [] => some []
  | a :: rest =>
    match f a, mapOption f rest with
    | some b, some bs => some (b :: bs)
    | _, _ => none

/-- main.rs lines 104-212: `gather_volumes` with the inventory queries
already resolved — pass 1 over the file names, pass 2 over the retained
candidates, then `Backups::into_values` (dropping candidates without an end
snapshot). -/
def gather_volumes (snapshots volumes files : List CStr) : Option (List Backup) :=
  match mapOption (fun kv => updateBackup snapshots kv.2) (gatherPass1 volumes files) with
  | none => none
  | some updated => some (updated.filter (fun b => b.end_snapshot.isSome))

/-! ### Lemmas about pass 2 -/

theorem mapOption_mem (f : α → Option β) :
    ∀ (l : List α) (l' : List β), mapOption f l = some l' →
      ∀ b ∈ l', ∃ a ∈ l, f a = some b := by
  intro l
  induction l with
  | nil =>
    intro l' h b hb
    simp only [mapOption, Option.some.injEq] at h
    subst h
    simp at hb
  | cons a rest ih =>
    intro l' h b hb
    simp only [mapOption] at h
    cases hfa : f a with
    | none => rw [hfa] at h; simp at h
    | some b0 =>
      rw [hfa] at h
      cases hrest : mapOption f rest with
      | none => rw [hrest] at h; simp at h
      | some bs =>
        rw [hrest] at h
        simp only [Option.some.injEq] at h
        subst h
        simp only [List.mem_cons] at hb
        rcases hb with rfl | hb
        · exact ⟨a, by simp, hfa⟩
        · obtain ⟨a', ha', hfa'⟩ := ih bs hrest b hb
          exact ⟨a', by simp [ha'], hfa'⟩

theorem splitFirst_not_mem_fst (c : Char) :
    ∀ (s : CStr) (p : CStr × CStr), splitFirst c s = some p → c ∉ p.1 := by
  intro s
  induction s with
  | nil => intro p h; simp [splitFirst] at h
  | cons a rest ih =>
    intro p h
    simp only [splitFirst] at h
    by_cases hac : a = c
    · rw [if_pos hac] at h
      simp only [Option.some.injEq] at h
      subst h
      simp
    · rw [if_neg hac] at h
      cases hsp : splitFirst c rest with
      | none => rw [hsp] at h; simp at h
      | some q =>
        rw [hsp] at h
        simp only [Option.some.injEq] at h
        subst h
        simp only [List.mem_cons, not_or]
        exact ⟨fun hc => hac hc.symm, ih q hsp⟩

theorem splitFirst_append_cons (c : Char) :
    ∀ (l r : CStr), c ∉ l → splitFirst c (l ++ c :: r) = some (l, r) := by
  intro l
  induction l with
  | nil => intro r _; simp [splitFirst]
  | cons a rest ih =>
    intro r hnm
    simp only [List.mem_cons, not_or] at hnm
    simp only [List.cons_append, splitFirst]
    rw [if_neg (fun h : a = c => hnm.1 h.symm)]
    rw [show rest.append (c :: r) = rest ++ c :: r from rfl, ih r hnm.2]

theorem afterFirst_append_cons (c : Char) (l r : CStr) (h : c ∉ l) :
    afterFirst c (l ++ c :: r) = r := by
  unfold afterFirst
  rw [splitFirst_append_cons c l r h]

theorem underscoreToSlash_at_free (s : CStr) (hs : '@' ∉ s) : '@' ∉ underscoreToSlash s := by
  unfold underscoreToSlash
  intro hm
  simp only [List.mem_map] at hm
  obtain ⟨ch, hmem, hch⟩ := hm
  by_cases h : ch = '_'
  · rw [if_pos h] at hch
    exact absurd hch (by decide)
  · rw [if_neg h] at hch
    subst hch
    exact hs hmem

/-- Any volume that `parseFile` resolves a file to is free of '@'
(provided the inventory's volume names are). -/
theorem parseFile_at_free (volumes : List CStr) (hAt : ∀ v ∈ volumes, '@' ∉ v)
    (file fb vol snap : CStr) (h : parseFile volumes file = some (fb, vol, snap)) :
    '@' ∉ vol := by
  unfold parseFile at h
  split at h
  · exact absurd h (by simp)
  · rename_i zfsPos hfind
    split at h
    · exact absurd h (by simp)
    · split at h
      · exact absurd h (by simp)
      · rename_i p0 backupSnap hsp
        have hp0 : '@' ∉ p0 := splitFirst_not_mem_fst '@' _ (p0, backupSnap) hsp
        split at h
        · simp only [Option.some.injEq, Prod.mk.injEq] at h
          obtain ⟨-, h2, -⟩ := h
          subst h2
          exact underscoreToSlash_at_free p0 hp0
        · split at h
          · rename_i v0 hm
            simp only [Option.some.injEq, Prod.mk.injEq] at h
            obtain ⟨-, h2, -⟩ := h
            subst h2
            have hv0 : v0 ∈ volumes.filter
                (fun v => (('/' :: underscoreToSlash p0).isSuffixOf v)) := by
              rw [hm]; simp
            exact hAt v0 (List.mem_filter.mp hv0).1
          · exact absurd h (by simp)

/-- Every entry of pass 1 records an '@'-free volume name. -/
theorem gatherPass1_at_free (volumes files : List CStr) (hAt : ∀ v ∈ volumes, '@' ∉ v) :
    ∀ kv ∈ gatherPass1 volumes files, '@' ∉ kv.2.volume := by
  suffices h : ∀ (fs : List CStr) (acc : Backups),
      (∀ kv ∈ acc, '@' ∉ kv.2.volume) →
      ∀ kv ∈ fs.foldl (pass1Step volumes) acc, '@' ∉ kv.2.volume by
    exact h files [] (by simp)
  intro fs
  induction fs with
  | nil => intro acc hacc; exact hacc
  | cons f rest ih =>
    intro acc hacc
    simp only [List.foldl_cons]
    apply ih
    cases hp : parseFile volumes f with
    | none => simp only [pass1Step, hp]; exact hacc
    | some t =>
      obtain ⟨fb, v, snap⟩ := t
      simp only [pass1Step, hp]
      apply insertB_forall
      · exact parseFile_at_free volumes hAt f fb v snap hp
      · intro k b hb
        rw [updateExisting_volume]
        exact hb
      · exact hacc

theorem le_append_left_cancel (p a b : CStr) (h : p ++ a ≤ p ++ b) : a ≤ b := by
  by_contra hlt
  have hba : b < a := lt_of_not_le hlt
  have : p ++ b < p ++ a := List.Lex.append_left _ hba p
  exact absurd this (not_lt_of_le h)

theorem sorted_le_getLast :
    ∀ (l : List CStr) (h : l ≠ []), l.Sorted (· ≤ ·) → ∀ x ∈ l, x ≤ l.getLast h := by
  intro l
  induction l with
  | nil => intro h; exact absurd rfl h
  | cons a t ih =>
    intro h hs x hx
    rw [List.sorted_cons] at hs
    cases t with
    | nil =>
      simp only [List.mem_singleton] at hx
      subst hx
      simp [List.getLast]
    | cons b t' =>
      rw [List.getLast_cons (by simp)]
      simp only [List.mem_cons] at hx
      rcases hx with rfl | hx
      · exact hs.1 (List.getLast (b :: t') (by simp)) (List.getLast_mem (by simp))
      · exact ih (by simp) hs.2 x (by simpa using hx)

theorem volumeSnapsSorted_sorted (snapshots : List CStr) (vol : CStr) :
    (volumeSnapsSorted snapshots vol).Sorted (· ≤ ·) :=
  List.sorted_insertionSort _ _

theorem mem_volumeSnapsSorted (snapshots : List CStr) (vol s : CStr) :
    s ∈ volumeSnapsSorted snapshots vol ↔
      s ∈ snapshots ∧ isVolumeDateSnap vol s = true := by
  unfold volumeSnapsSorted
  rw [List.mem_insertionSort, List.mem_filter]

/-- A snapshot that passes the volume/date filter decomposes as
`vol ++ '@' :: label`. -/
theorem volumeDateSnap_decomp (vol s : CStr) (h : isVolumeDateSnap vol s = true) :
    s = vol ++ '@' :: s.drop (vol ++ ['@']).length := by
  unfold isVolumeDateSnap at h
  simp only [Bool.and_eq_true] at h
  have hpre : (vol ++ ['@']) <+: s := List.isPrefixOf_iff_prefix.mp h.1
  have := List.prefix_iff_eq_append.mp hpre
  calc s = (vol ++ ['@']) ++ s.drop (vol ++ ['@']).length := this.symm
    _ = vol ++ '@' :: s.drop (vol ++ ['@']).length := by simp

theorem clearStart_volume (snapshots : List CStr) (b : Backup) :
    (clearStart snapshots b).volume = b.volume := by
  unfold clearStart
  rcases hb : b.start_snapshot with _ | s
  · rfl
  · dsimp only
    split <;> rfl

theorem clearStart_end (snapshots : List CStr) (b : Backup) :
    (clearStart snapshots b).end_snapshot = b.end_snapshot := by
  unfold clearStart
  rcases hb : b.start_snapshot with _ | s
  · rfl
  · dsimp only
    split <;> rfl

/-- The cleared start snapshot is `none` whenever the recorded one is not a
current snapshot of the volume. -/
theorem clearStart_clears (snapshots : List CStr) (b : Backup) (s : CStr)
    (hstart : b.start_snapshot = some s)
    (hmiss : (b.volume ++ '@' :: s) ∉ snapshots) :
    (clearStart snapshots b).start_snapshot = none := by
  unfold clearStart
  rw [hstart]
  dsimp only
  have hcont : (volumeSnapsSorted snapshots b.volume).contains
      ((b.volume ++ ['@']) ++ s) ≠ true := by
    intro hc
    have hmem : ((b.volume ++ ['@']) ++ s) ∈ volumeSnapsSorted snapshots b.volume := by
      simpa using hc
    have := (mem_volumeSnapsSorted snapshots b.volume _).mp hmem
    apply hmiss
    have heq : (b.volume ++ ['@']) ++ s = b.volume ++ '@' :: s := by simp
    rw [← heq]
    exact this.1
  rw [if_neg hcont]

theorem updateBackup_volume (snapshots : List CStr) (b0 b : Backup)
    (h : updateBackup snapshots b0 = some b) : b.volume = b0.volume := by
  unfold updateBackup at h
  split at h
  · exact absurd h (by simp)
  · split at h
    · simp only [Option.some.injEq] at h
      subst h
      exact clearStart_volume snapshots b0
    · split at h
      · simp only [Option.some.injEq] at h
        subst h
        exact clearStart_volume snapshots b0
      · simp only [Option.some.injEq] at h
        subst h
        exact clearStart_volume snapshots b0

/-- C5: for every candidate evaluated in pass 2 whose recorded
`start_snapshot` does not occur among the volume's current snapshots, the
update clears the baseline to `None` (full-backup fallback) in its result. -/
theorem missing_start_snapshot_cleared (snapshots : List CStr) (b0 : Backup) (s : CStr)
    (b : Backup)
    (hstart : b0.start_snapshot = some s)
    (hmiss : (b0.volume ++ '@' :: s) ∉ snapshots)
    (hupd : updateBackup snapshots b0 = some b) :
    b.start_snapshot = none := by
  have hclear := clearStart_clears snapshots b0 s hstart hmiss
  unfold updateBackup at hupd
  split at hupd
  · exact absurd hupd (by simp)
  · split at hupd
    · simp only [Option.some.injEq] at hupd
      subst hupd
      exact hclear
    · split at hupd
      · simp only [Option.some.injEq] at hupd
        subst hupd
        exact hclear
      · simp only [Option.some.injEq] at hupd
        subst hupd
        exact hclear

/-- C5 witness: a concrete candidate whose recorded baseline 2023-12-01 is
gone is demoted to a full backup. -/
theorem missing_start_snapshot_cleared_witness :
    updateBackup ["tank/home@2024-01-02".toList]
        ⟨"tank_home".toList, "tank/home".toList, some "2023-12-01".toList, none⟩ =
      some ⟨"tank_home".toList, "tank/home".toList, none, some "2024-01-02".toList⟩ ∧
    (⟨"tank_home".toList, "tank/home".toList, none,
        some "2024-01-02".toList⟩ : Backup).start_snapshot = none := by
  constructor
  · decide
  · exact missing_start_snapshot_cleared ["tank/home@2024-01-02".toList]
      ⟨"tank_home".toList, "tank/home".toList, some "2023-12-01".toList, none⟩
      "2023-12-01".toList
      ⟨"tank_home".toList, "tank/home".toList, none, some "2024-01-02".toList⟩
      rfl (by decide) (by decide)

/-- C4: every candidate in `gather_volumes`' final worklist carries an
`end_snapshot` equal to the lexicographically maximal `YYYY-MM-DD`-shaped
label of its volume's snapshots, and its (possibly cleared) start snapshot
differs from the end snapshot — a candidate with equal labels never appears
in the output. -/
theorem gather_volumes_end_snapshot_max (snapshots volumes files : List CStr)
    (hAt : ∀ v ∈ volumes, '@' ∉ v) (ws : List Backup)
    (hg : gather_volumes snapshots volumes files = some ws) :
    ∀ b ∈ ws, ∃ lab, b.end_snapshot = some lab ∧
      lab ∈ volumeDateLabels snapshots b.volume ∧
      (∀ l' ∈ volumeDateLabels snapshots b.volume, l' ≤ lab) ∧
      b.start_snapshot ≠ b.end_snapshot := by
  intro b hb
  unfold gather_volumes at hg
  cases hmap : mapOption (fun kv => updateBackup snapshots kv.2) (gatherPass1 volumes files) with
  | none => rw [hmap] at hg; exact absurd hg (by simp)
  | some updated =>
    rw [hmap] at hg
    simp only [Option.some.injEq] at hg
    subst hg
    rw [List.mem_filter] at hb
    obtain ⟨hbu, hbe⟩ := hb
    obtain ⟨kv, hkv, hupd⟩ := mapOption_mem _ _ _ hmap b hbu
    have hvol0 : '@' ∉ kv.2.volume := gatherPass1_at_free volumes files hAt kv hkv
    have hend0 : kv.2.end_snapshot = none := (gatherPass1_entries volumes files kv hkv).2
    unfold updateBackup at hupd
    split at hupd
    · exact absurd hupd (by simp)
    · rename_i lastFull hlast
      split at hupd
      · -- the end snapshot was set to the last date-labelled snapshot
        rename_i hne
        simp only [Option.some.injEq] at hupd
        subst hupd
        -- facts about the last element of the sorted snapshot list
        have hnil : volumeSnapsSorted snapshots kv.2.volume ≠ [] := by
          intro he
          rw [he] at hlast
          simp at hlast
        have hlf : lastFull = (volumeSnapsSorted snapshots kv.2.volume).getLast hnil := by
          rw [List.getLast?_eq_getLast _ hnil] at hlast
          injection hlast with h
          exact h.symm
        have hlfmem : lastFull ∈ volumeSnapsSorted snapshots kv.2.volume := by
          rw [hlf]; exact List.getLast_mem hnil
        have hlfmax : ∀ x ∈ volumeSnapsSorted snapshots kv.2.volume, x ≤ lastFull := by
          intro x hx
          rw [hlf]
          exact sorted_le_getLast _ hnil (volumeSnapsSorted_sorted snapshots kv.2.volume) x hx
        obtain ⟨hlfsnap, hlfdate⟩ := (mem_volumeSnapsSorted snapshots kv.2.volume lastFull).mp hlfmem
        have hdecomp := volumeDateSnap_decomp kv.2.volume lastFull hlfdate
        have hafter : afterFirst '@' lastFull =
            lastFull.drop (kv.2.volume ++ ['@']).length := by
          conv_lhs => rw [hdecomp]
          exact afterFirst_append_cons '@' _ _ hvol0
        refine ⟨afterFirst '@' lastFull, rfl, ?_, ?_, ?_⟩
        · dsimp only
          rw [clearStart_volume, hafter]
          unfold volumeDateLabels
          exact List.mem_map_of_mem _ (List.mem_filter.mpr ⟨hlfsnap, hlfdate⟩)
        · intro l' hl'
          dsimp only at hl'
          rw [clearStart_volume] at hl'
          unfold volumeDateLabels at hl'
          rw [List.mem_map] at hl'
          obtain ⟨s', hs', rfl⟩ := hl'
          rw [List.mem_filter] at hs'
          have hs'mem : s' ∈ volumeSnapsSorted snapshots kv.2.volume :=
            (mem_volumeSnapsSorted snapshots kv.2.volume s').mpr ⟨hs'.1, hs'.2⟩
          have hle : s' ≤ lastFull := hlfmax s' hs'mem
          have hs'decomp := volumeDateSnap_decomp kv.2.volume s' hs'.2
          rw [hafter]
          apply le_append_left_cancel (kv.2.volume ++ ['@'])
          have he1 : (kv.2.volume ++ ['@']) ++ s'.drop (kv.2.volume ++ ['@']).length = s' := by
            conv_rhs => rw [hs'decomp]
            simp
          have he2 : (kv.2.volume ++ ['@']) ++
              lastFull.drop (kv.2.volume ++ ['@']).length = lastFull := by
            conv_rhs => rw [hdecomp]
            simp
          rw [he1, he2]
          exact hle
        · simpa using hne
      · -- end snapshot cleared to none: filtered out of the worklist
        split at hupd
        · simp only [Option.some.injEq] at hupd
          subst hupd
          simp at hbe
        · simp only [Option.some.injEq] at hupd
          subst hupd
          rw [clearStart_end, hend0] at hbe
          simp at hbe

/-- C4 witness: one volume with snapshots 2024-01-01 and 2024-02-03 and an
on-disk artifact based at 2024-01-01 yields exactly one candidate ending at
the maximal label 2024-02-03. -/
theorem gather_volumes_end_snapshot_max_witness :
    gather_volumes
        ["tank/home@2024-01-01".toList, "tank/home@2024-02-03".toList]
        ["tank/home".toList]
        ["tank_home@2024-01-01.zfs.zst.gpg".toList] =
      some [⟨"tank_home".toList, "tank/home".toList, some "2024-01-01".toList,
            some "2024-02-03".toList⟩] ∧
    (∃ lab,
      (⟨"tank_home".toList, "tank/home".toList, some "2024-01-01".toList,
        some "2024-02-03".toList⟩ : Backup).end_snapshot = some lab ∧
      lab ∈ volumeDateLabels
        ["tank/home@2024-01-01".toList, "tank/home@2024-02-03".toList]
        (⟨"tank_home".toList, "tank/home".toList, some "2024-01-01".toList,
          some "2024-02-03".toList⟩ : Backup).volume ∧
      (∀ l' ∈ volumeDateLabels
          ["tank/home@2024-01-01".toList, "tank/home@2024-02-03".toList]
          (⟨"tank_home".toList, "tank/home".toList, some "2024-01-01".toList,
            some "2024-02-03".toList⟩ : Backup).volume, l' ≤ lab) ∧
      (⟨"tank_home".toList, "tank/home".toList, some "2024-01-01".toList,
        some "2024-02-03".toList⟩ : Backup).start_snapshot ≠
        (⟨"tank_home".toList, "tank/home".toList, some "2024-01-01".toList,
          some "2024-02-03".toList⟩ : Backup).end_snapshot) := by
  constructor
  · decide
  · exact gather_volumes_end_snapshot_max
      ["tank/home@2024-01-01".toList, "tank/home@2024-02-03".toList]
      ["tank/home".toList]
      ["tank_home@2024-01-01.zfs.zst.gpg".toList]
      (by decide)
      [⟨"tank_home".toList, "tank/home".toList, some "2024-01-01".toList,
        some "2024-02-03".toList⟩]
      (by decide)
      _ (by simp)

/-! ## src/hash_stream.rs — HashingWrite and write_file_and_sidecar

Bytes are `Nat` values below 256.  The digest algorithm is an opaque
function from byte sequences to byte sequences; the `ring` Context is
embedded as the accumulated list of bytes fed to it, with `finish`
applying the algorithm to the accumulation.  The downstream `File` is the
in-memory list of bytes written, so reads and writes never fail and never
come up short — the situation claimed. -/

/-- The lowercase hex digit table of Rust's `{:02x}` formatting. -/
def hexDigits : List Char :=
  "0123456789abcdef".toList

/-- `format!("{:02x}", byte)`: two lowercase hex digits. -/
def hexByteChars (b : Nat) : List Char :=
  [hexDigits.getD (b / 16 % 16) '0', hexDigits.getD (b % 16) '0']

/-- hash_stream.rs lines 94-95: the fold producing the digest's hex string. -/
def toHexChars (bs : List Nat) : CStr :=
  (bs.map hexByteChars).flatten

/-- hash_stream.rs lines 35-38: `HashingWrite` — the hash context (as the
bytes fed so far) plus the downstream sink (as the bytes written so far). -/
structure HashingWrite where
  ctxBytes : List Nat
  innerBytes : List Nat

/-- hash_stream.rs lines 112-117: `HashingWrite::write` — feed the buffer to
the hash context, then forward it downstream; returns the downstream write
count (the full buffer for the in-memory sink). -/
def HashingWrite.write (hw : HashingWrite) (buf : List Nat) : HashingWrite × Nat :=
  ({ ctxBytes := hw.ctxBytes ++ buf, innerBytes := hw.innerBytes ++ buf }, buf.length)

/-- hash_stream.rs lines 48-51: `HashingWrite::finish`. -/
def HashingWrite.finish (algo : List Nat → List Nat) (hw : HashingWrite) : List Nat :=
  algo hw.ctxBytes

/-- hash_stream.rs lines 70-92: the read/write loop of
`write_file_and_sidecar`.  The source (`input.read`) is embedded as the list
of chunks successive reads return; a read of 0 bytes is end-of-input. -/
def writeLoop : HashingWrite → Nat → List (List Nat) → Except CStr (HashingWrite × Nat)
  | hw, progress, [] => .ok (hw, progress)
  | hw, progress, chunk :: rest =>
    if chunk.length = 0 then .ok (hw, progress)
    else
      let step := hw.write chunk
      if step.2 ≠ chunk.length then .error ("nwritten != nread").toList
      else writeLoop step.1 (progress + chunk.length) rest

/-- The observable result of a successful `write_file_and_sidecar`: the
destination file's bytes, the sidecar's text, and the progress counter. -/
structure SidecarOut where
  fileBytes : List Nat
  sidecarChars : CStr
  progressTotal : Nat
deriving DecidableEq

/-- hash_stream.rs lines 53-110: `write_file_and_sidecar`. -/
def write_file_and_sidecar (algo : List Nat → List Nat) (chunks : List (List Nat)) :
    Except CStr SidecarOut :=
  match writeLoop ⟨[], []⟩ 0 chunks with
  | .error e => .error e
  | .ok (hw, progressTotal) =>
    .ok ⟨hw.innerBytes, toHexChars (HashingWrite.finish algo hw), progressTotal⟩

theorem writeLoop_ok (chunks : List (List Nat)) :
    ∀ (hw : HashingWrite) (p : Nat), (∀ c ∈ chunks, c ≠ []) →
      writeLoop hw p chunks =
        .ok (⟨hw.ctxBytes ++ chunks.flatten, hw.innerBytes ++ chunks.flatten⟩,
             p + chunks.flatten.length) := by
  induction chunks with
  | nil =>
    intro hw p _
    simp only [writeLoop, List.flatten_nil, List.append_nil, List.length_nil, Nat.add_zero]
  | cons c rest ih =>
    intro hw p hne
    have hc : c ≠ [] := hne c (by simp)
    have hlen : c.length ≠ 0 := fun h => hc (List.length_eq_zero.mp h)
    simp only [writeLoop, if_neg hlen]
    rw [if_neg (by simp [HashingWrite.write])]
    rw [ih _ _ (fun x hx => hne x (by simp [hx]))]
    simp [HashingWrite.write, Nat.add_assoc]

theorem getD_hexDigits_mem (i : Nat) : hexDigits.getD i '0' ∈ hexDigits := by
  by_cases h : i < hexDigits.length
  · rw [List.getD_eq_getElem _ _ h]
    exact List.getElem_mem h
  · rw [List.getD_eq_default _ _ (le_of_not_lt h)]
    decide

theorem toHexChars_mem (bs : List Nat) : ∀ ch ∈ toHexChars bs, ch ∈ hexDigits := by
  intro ch hch
  unfold toHexChars at hch
  rw [List.mem_flatten] at hch
  obtain ⟨l, hl, hmem⟩ := hch
  rw [List.mem_map] at hl
  obtain ⟨b, _, rfl⟩ := hl
  unfold hexByteChars at hmem
  simp only [List.mem_cons, List.not_mem_nil, or_false] at hmem
  rcases hmem with rfl | rfl
  · exact getD_hexDigits_mem _
  · exact getD_hexDigits_mem _

/-- C7: for any digest algorithm and any chunk sequence delivered without
errors, empty reads, or short writes, `write_file_and_sidecar` succeeds, the
destination holds exactly the source bytes, the sidecar holds the hex digest
of the destination's own bytes (written with lowercase hex digits only), and
the progress counter equals the byte count. -/
theorem write_file_and_sidecar_roundtrip (algo : List Nat → List Nat)
    (chunks : List (List Nat)) (hne : ∀ c ∈ chunks, c ≠ [] ∧ c.length ≤ 8192) :
    ∃ out, write_file_and_sidecar algo chunks = .ok out ∧
      out.fileBytes = chunks.flatten ∧
      out.sidecarChars = toHexChars (algo out.fileBytes) ∧
      out.progressTotal = out.fileBytes.length ∧
      ∀ ch ∈ out.sidecarChars, ch ∈ hexDigits := by
  refine ⟨⟨chunks.flatten, toHexChars (algo chunks.flatten), chunks.flatten.length⟩, ?_, rfl,
    rfl, rfl, toHexChars_mem _⟩
  unfold write_file_and_sidecar
  rw [writeLoop_ok chunks ⟨[], []⟩ 0 (fun c hc => (hne c hc).1)]
  simp [HashingWrite.finish]

/-- C7 witness: a concrete two-chunk stream with an algorithm summing the
bytes into a single-byte digest. -/
theorem write_file_and_sidecar_roundtrip_witness :
    ∃ out, write_file_and_sidecar (fun bs => [bs.foldl (· + ·) 0 % 256]) [[1, 2], [3]] =
        .ok out ∧
      out.fileBytes = [[1, 2], [3]].flatten ∧
      out.sidecarChars = toHexChars ((fun bs => [bs.foldl (· + ·) 0 % 256]) out.fileBytes) ∧
      out.progressTotal = out.fileBytes.length ∧
      ∀ ch ∈ out.sidecarChars, ch ∈ hexDigits :=
  write_file_and_sidecar_roundtrip (fun bs => [bs.foldl (· + ·) 0 % 256]) [[1, 2], [3]]
    (by decide)

/-! ## src/zfs.rs — the stderr telemetry loop and the commit logic of Zfs::send

The stderr stream is embedded as the list of lines `read_line` returns
before end-of-file.  The hashing thread's outcome and the child's exit
status are parameters; the file-system effects after the call are recorded
as boolean fields of `SendOutcome`. -/

/-- Result of the `loop` over stderr lines (zfs.rs lines 245-307):
`completed size` means the loop ended by end-of-file or by the
`size == 0` break; `protocolError` is the early `return Err(...)` for an
unrecognized line; `panicked` covers the two panics inside the loop
(`parse::<u64>().unwrap()` on the size line, and `Local::today().and_hms`
on out-of-range time components). -/
inductive StderrResult
  | completed (size : Nat)
  | protocolError (line : CStr)
  | panicked (line : CStr)
deriving DecidableEq

/-- `chrono`'s `and_hms` accepts exactly these ranges; anything else panics. -/
def validHms (h m s : Nat) : Bool :=
  h < 24 && m < 60 && s < 60

/-- zfs.rs lines 245-307: one pass over the stderr lines, tracking `size`. -/
def processStderr : List CStr → Nat → StderrResult
  | [], size => .completed size
  | line :: rest, size =>
    if ("incremental\t".toList.isPrefixOf line) || ("full\t".toList.isPrefixOf line) then
      processStderr rest size
    else if "size\t".toList.isPrefixOf line then
      match parseU64 (line.drop 5) with
      | none => .panicked line
      | some n => if n = 0 then .completed 0 else processStderr rest n
    else
      if (splitEvery '\t' line).length ≠ 3 then .protocolError line
      else if ((splitEvery ':' ((splitEvery '\t' line).getD 0 [])).filterMap parseU32).length ≠ 3
        then .protocolError line
      else if !validHms
          (((splitEvery ':' ((splitEvery '\t' line).getD 0 [])).filterMap parseU32).getD 0 0)
          (((splitEvery ':' ((splitEvery '\t' line).getD 0 [])).filterMap parseU32).getD 1 0)
          (((splitEvery ':' ((splitEvery '\t' line).getD 0 [])).filterMap parseU32).getD 2 0) then
        .panicked line
      else
        match parseU64 ((splitEvery '\t' line).getD 1 []) with
        | none => .protocolError line
        | some _ => processStderr rest size

/-- A child's exit status: `std::process::ExitStatus`. -/
inductive ExitStatus
  | exited (code : Int)
  | signaled (sig : Nat)
deriving DecidableEq

/-- `ExitStatus::success`. -/
def ExitStatus.success : ExitStatus → Bool
  | .exited c => c == 0
  | .signaled _ => false

/-- zfs.rs line 318: `exit_status.code().or(Some(0)).unwrap()`. -/
def ExitStatus.codeOrZero : ExitStatus → Int
  | .exited c => c
  | .signaled _ => 0

/-- The error cases `Zfs::send` can return, per the spec's taxonomy:
`protocolError` is the "Unrecognized output" ZfsError, `threadError` the
message recovered from a dead hashing thread, `externalProcessError` the
"'zfs send' returned nonzero exit code" ZfsError. -/
inductive SendError
  | protocolError (line : CStr)
  | threadError (msg : CStr)
  | externalProcessError (code : Int)
deriving DecidableEq

/-- The observable outcome of one `Zfs::send` call: its result, whether the
child's exit status was awaited, and the on-disk state (`pending*` are the
`_partial` artifact and its `_partial...sha256sum` sidecar). -/
structure SendOutcome where
  result : Except SendError Unit
  waited : Bool
  renamed : Bool
  pendingArtifactExists : Bool
  pendingSidecarExists : Bool
  finalArtifactExists : Bool
  finalSidecarExists : Bool
  appendedChecksumLine : Bool

/-- zfs.rs lines 177-340: `Zfs::send` after the child is spawned.  `none`
is a panic of the main thread inside the stderr loop.  The order of events
follows the source: stderr loop, `read_thread.join()`, `child.wait()`,
then either `remove_file` (size 0) or the two renames plus the sidecar
append.  On the early protocol-error return and on a failed join the exit
status is never awaited (`waited := false`); on the protocol-error return
the hashing thread is still draining stdout, so the pending files are
reported as the thread will eventually leave them. -/
def sendModel (lines : List CStr) (hashResult : Except CStr Unit) (st : ExitStatus) :
    Option SendOutcome :=
  match processStderr lines 0 with
  | .panicked _ => none
  | .protocolError l =>
    some { result := .error (.protocolError l), waited := false, renamed := false,
           pendingArtifactExists := true,
           pendingSidecarExists := hashResult.isOk,
           finalArtifactExists := false, finalSidecarExists := false,
           appendedChecksumLine := false }
  | .completed size =>
    match hashResult with
    | .error msg =>
      some { result := .error (.threadError msg), waited := false, renamed := false,
             pendingArtifactExists := true, pendingSidecarExists := false,
             finalArtifactExists := false, finalSidecarExists := false,
             appendedChecksumLine := false }
    | .ok _ =>
      if st.success then
        if size = 0 then
          some { result := .ok (), waited := true, renamed := false,
                 pendingArtifactExists := false, pendingSidecarExists := true,
                 finalArtifactExists := false, finalSidecarExists := false,
                 appendedChecksumLine := false }
        else
          some { result := .ok (), waited := true, renamed := true,
                 pendingArtifactExists := false, pendingSidecarExists := false,
                 finalArtifactExists := true, finalSidecarExists := true,
                 appendedChecksumLine := true }
      else
        some { result := .error (.externalProcessError st.codeOrZero), waited := true,
               renamed := false, pendingArtifactExists := true, pendingSidecarExists := true,
               finalArtifactExists := false, finalSidecarExists := false,
               appendedChecksumLine := false }

/-- A non-ignored, non-size telemetry line that the loop rejects with the
"Unrecognized output" error: not exactly 3 tab-separated fields, or a time
field without exactly 3 numeric colon-separated components, or a
non-numeric second field (with in-range time components). -/
def telemetryMalformed (line : CStr) : Bool :=
  !("incremental\t".toList.isPrefixOf line) && !("full\t".toList.isPrefixOf line) &&
  !("size\t".toList.isPrefixOf line) &&
  (if (splitEvery '\t' line).length ≠ 3 then true
   else if ((splitEvery ':' ((splitEvery '\t' line).getD 0 [])).filterMap parseU32).length ≠ 3
     then true
   else if !validHms
       (((splitEvery ':' ((splitEvery '\t' line).getD 0 [])).filterMap parseU32).getD 0 0)
       (((splitEvery ':' ((splitEvery '\t' line).getD 0 [])).filterMap parseU32).getD 1 0)
       (((splitEvery ':' ((splitEvery '\t' line).getD 0 [])).filterMap parseU32).getD 2 0) then
     false
   else (parseU64 ((splitEvery '\t' line).getD 1 [])).isNone)

/-- C2 counterexample: the progress line `00:00:01<TAB>5<TAB>xyz` carries the
non-numeric total-bytes field `xyz`, yet the whole send succeeds — the third
tab-separated field is never parsed, so no `ProtocolError` is raised. -/
theorem telemetry_nonnumeric_total_not_fatal :
    (splitEvery '\t' "00:00:01\t5\txyz".toList).getD 2 [] = "xyz".toList ∧
    parseU64 "xyz".toList = none ∧
    sendModel ["size\t10".toList, "00:00:01\t5\txyz".toList] (.ok ()) (.exited 0) =
      some { result := .ok (), waited := true, renamed := true,
             pendingArtifactExists := false, pendingSidecarExists := false,
             finalArtifactExists := true, finalSidecarExists := true,
             appendedChecksumLine := true } :=
  ⟨by decide, by decide, rfl⟩

/-- C2 (amended): a non-ignored, non-size stderr line that does not split
into exactly 3 tab-separated fields, or whose time field lacks exactly 3
numeric colon-separated components, or whose second field is non-numeric,
makes the loop return the `ProtocolError` immediately — the upstream
process's exit status is then never awaited and nothing is renamed. -/
theorem telemetry_malformed_protocol_error :
    (∀ (line : CStr) (rest : List CStr) (size : Nat), telemetryMalformed line = true →
      processStderr (line :: rest) size = .protocolError line) ∧
    (∀ (lines : List CStr) (l : CStr) (hashResult : Except CStr Unit) (st : ExitStatus),
      processStderr lines 0 = .protocolError l →
      ∃ out, sendModel lines hashResult st = some out ∧
        out.result = .error (.protocolError l) ∧ out.waited = false ∧ out.renamed = false ∧
        out.finalArtifactExists = false ∧ out.finalSidecarExists = false) := by
  constructor
  · intro line rest size h
    unfold telemetryMalformed at h
    rw [Bool.and_eq_true, Bool.and_eq_true, Bool.and_eq_true] at h
    obtain ⟨⟨⟨h1, h2⟩, h3⟩, h4⟩ := h
    have h1' : ("incremental\t".toList.isPrefixOf line) = false := by simpa using h1
    have h2' : ("full\t".toList.isPrefixOf line) = false := by simpa using h2
    have h3' : ("size\t".toList.isPrefixOf line) = false := by simpa using h3
    unfold processStderr
    rw [if_neg (by rw [h1', h2']; simp)]
    rw [if_neg (by rw [h3']; simp)]
    by_cases hp : (splitEvery '\t' line).length ≠ 3
    · rw [if_pos hp]
    · rw [if_neg hp]
      rw [if_neg hp] at h4
      by_cases ht : ((splitEvery ':' ((splitEvery '\t' line).getD 0 [])).filterMap
          parseU32).length ≠ 3
      · rw [if_pos ht]
      · rw [if_neg ht]
        rw [if_neg ht] at h4
        by_cases hv : (!validHms
            (((splitEvery ':' ((splitEvery '\t' line).getD 0 [])).filterMap parseU32).getD 0 0)
            (((splitEvery ':' ((splitEvery '\t' line).getD 0 [])).filterMap parseU32).getD 1 0)
            (((splitEvery ':' ((splitEvery '\t' line).getD 0 [])).filterMap
              parseU32).getD 2 0)) = true
        · rw [if_pos hv] at h4
          exact absurd h4 (by simp)
        · rw [if_neg hv] at h4
          rw [if_neg hv]
          rw [Option.isNone_iff_eq_none] at h4
          rw [h4]
  · intro lines l hashResult st h
    unfold sendModel
    rw [h]
    exact ⟨_, rfl, rfl, rfl, rfl, rfl, rfl⟩

/-- C2 witness for the amended statement: the one-field line `junk`. -/
theorem telemetry_malformed_protocol_error_witness :
    processStderr ("junk".toList :: []) 7 = .protocolError "junk".toList ∧
    (∃ out, sendModel ["junk".toList] (.ok ()) (.exited 0) = some out ∧
      out.result = .error (.protocolError "junk".toList) ∧ out.waited = false ∧
      out.renamed = false ∧ out.finalArtifactExists = false ∧
      out.finalSidecarExists = false) :=
  ⟨telemetry_malformed_protocol_error.1 "junk".toList [] 7 (by decide),
   telemetry_malformed_protocol_error.2 ["junk".toList] "junk".toList (.ok ()) (.exited 0)
     (by decide)⟩

/-- C3: when the stderr loop completes and the hashing thread succeeded but
the pipeline exits with a non-zero code, `Zfs::send` fails with the
nonzero-exit-code error carrying that code, performs no rename, and leaves
both the partial artifact and the partial sidecar on disk — regardless of
the reported transfer size. -/
theorem nonzero_exit_external_process_error (lines : List CStr) (size : Nat) (c : Int)
    (hloop : processStderr lines 0 = .completed size) (hc : c ≠ 0) :
    ∃ out, sendModel lines (.ok ()) (.exited c) = some out ∧
      out.result = .error (.externalProcessError c) ∧ out.waited = true ∧
      out.renamed = false ∧ out.pendingArtifactExists = true ∧
      out.pendingSidecarExists = true ∧ out.finalArtifactExists = false ∧
      out.finalSidecarExists = false := by
  refine ⟨{ result := .error (.externalProcessError c), waited := true, renamed := false,
            pendingArtifactExists := true, pendingSidecarExists := true,
            finalArtifactExists := false, finalSidecarExists := false,
            appendedChecksumLine := false }, ?_, rfl, rfl, rfl, rfl, rfl, rfl, rfl⟩
  unfold sendModel
  rw [hloop]
  have hsucc : ¬ (ExitStatus.success (.exited c) = true) := by
    simp [ExitStatus.success, hc]
  dsimp only
  rw [if_neg hsucc]
  rfl

/-- C3 witness: a successful 5-byte transfer whose pipeline exits 2. -/
theorem nonzero_exit_external_process_error_witness :
    ∃ out, sendModel ["size\t5".toList] (.ok ()) (.exited 2) = some out ∧
      out.result = .error (.externalProcessError 2) ∧ out.waited = true ∧
      out.renamed = false ∧ out.pendingArtifactExists = true ∧
      out.pendingSidecarExists = true ∧ out.finalArtifactExists = false ∧
      out.finalSidecarExists = false :=
  nonzero_exit_external_process_error ["size\t5".toList] 5 2 (by decide) (by decide)

/-- C6: a run whose stderr loop ends with a reported size of 0 (with a
successful hashing thread and a clean pipeline exit) removes the partial
artifact, performs no rename, produces neither a final artifact nor a final
sidecar, appends nothing, and returns success. -/
theorem zero_size_empty_snapshot_success (lines : List CStr)
    (hloop : processStderr lines 0 = .completed 0) :
    ∃ out, sendModel lines (.ok ()) (.exited 0) = some out ∧
      out.result = .ok () ∧ out.renamed = false ∧ out.pendingArtifactExists = false ∧
      out.finalArtifactExists = false ∧ out.finalSidecarExists = false ∧
      out.appendedChecksumLine = false := by
  refine ⟨{ result := .ok (), waited := true, renamed := false,
            pendingArtifactExists := false, pendingSidecarExists := true,
            finalArtifactExists := false, finalSidecarExists := false,
            appendedChecksumLine := false }, ?_, rfl, rfl, rfl, rfl, rfl, rfl⟩
  unfold sendModel
  rw [hloop]
  rfl

/-- C6 witness: the stderr stream reporting `size<TAB>0`. -/
theorem zero_size_empty_snapshot_success_witness :
    ∃ out, sendModel ["size\t0".toList] (.ok ()) (.exited 0) = some out ∧
      out.result = .ok () ∧ out.renamed = false ∧ out.pendingArtifactExists = false ∧
      out.finalArtifactExists = false ∧ out.finalSidecarExists = false ∧
      out.appendedChecksumLine = false :=
  zero_size_empty_snapshot_success ["size\t0".toList] (by decide)

/-! ## src/inheritable_pipe.rs — the passphrase pipe

POSIX `pipe(2)` fills `fds[0]` with the reading end and `fds[1]` with the
writing end, both without the close-on-exec flag.  The model records the
close-on-exec flag of each end, which end `child_fd` holds, and which end
backs `our_file` (the parent's `Write` implementation). -/

/-- One end of the pipe: `fds[0]` is the read end, `fds[1]` the write end. -/
inductive PipeEnd
  | readEnd
  | writeEnd
deriving DecidableEq

/-- Close-on-exec flags of the two pipe file descriptors. -/
structure PipeFlags where
  readCloexec : Bool
  writeCloexec : Bool
deriving DecidableEq

/-- The state `InheritablePipe::new` (inheritable_pipe.rs lines 28-42)
leaves behind: `flags` after the two `fcntl` calls, `child_fd` holding
`fds[0]`, and `our_file` owning `fds[1]`. -/
structure InheritablePipeState where
  flags : PipeFlags
  child_fd : PipeEnd
  our_file : PipeEnd
deriving DecidableEq

/-- inheritable_pipe.rs lines 28-42: `pipe(&mut fds)` creates both ends
without FD_CLOEXEC; `fcntl(fds[0], F_GETFD)` reads the read end's flags;
`fcntl(fds[1], F_SETFD, flags | FD_CLOEXEC)` sets close-on-exec on the
write end; the struct keeps `child_fd = fds[0]` and
`our_file = File::from_raw_fd(fds[1])`. -/
def InheritablePipe.new : InheritablePipeState :=
  let fdsFlags : PipeFlags := { readCloexec := false, writeCloexec := false }
  let flags := fdsFlags.readCloexec
  let fdsFlags := { fdsFlags with writeCloexec := flags || true }
  { flags := fdsFlags, child_fd := PipeEnd.readEnd, our_file := PipeEnd.writeEnd }

/-- inheritable_pipe.rs lines 59-66: the parent's `Write` impl writes to
`our_file`. -/
def InheritablePipeState.writeTarget (p : InheritablePipeState) : PipeEnd :=
  p.our_file

/-- C9 counterexample: the claim — the READ end is retained by the parent
and marked close-on-exec while the WRITE end is handed to the child and
left inheritable — is false of `InheritablePipe::new`: the roles are
exactly swapped. -/
theorem inheritable_pipe_claim_false :
    ¬ (InheritablePipe.new.child_fd = PipeEnd.writeEnd ∧
       InheritablePipe.new.flags.readCloexec = true ∧
       InheritablePipe.new.flags.writeCloexec = false) := by
  decide

/-- C9 (amended): the constructor allocates a pipe and marks the WRITING
end — retained by the parent, whose write interface targets it —
close-on-exec, while the READING end — handed to the child as `child_fd` —
is left inheritable (no close-on-exec flag). -/
theorem inheritable_pipe_write_end_cloexec :
    InheritablePipe.new.child_fd = PipeEnd.readEnd ∧
    InheritablePipe.new.our_file = PipeEnd.writeEnd ∧
    InheritablePipe.new.writeTarget = PipeEnd.writeEnd ∧
    InheritablePipe.new.flags.writeCloexec = true ∧
    InheritablePipe.new.flags.readCloexec = false := by
  decide

/-! ## src/lib.rs — calendar model

chrono's `Date<Local>` values (always produced here from plain
year-month-day snapshot labels) are embedded as year/month/day triples;
the day arithmetic, weekday and ISO-week computations chrono provides are
modelled with the standard civil-calendar algorithms. -/

/-- A calendar date (chrono `Date<Local>` as used by this program). -/
structure CalDate where
  year : Int
  month : Nat
  day : Nat
deriving DecidableEq

def isLeapYear (y : Int) : Bool :=
  y % 4 = 0 && (y % 100 ≠ 0 || y % 400 = 0)

def daysInMonth (y : Int) (m : Nat) : Nat :=
  if m = 2 then (if isLeapYear y then 29 else 28)
  else if m = 4 || m = 6 || m = 9 || m = 11 then 30
  else 31

/-- The dates chrono's `ymd` accepts; anything else panics. -/
def validDate (d : CalDate) : Bool :=
  1 ≤ d.month && d.month ≤ 12 && 1 ≤ d.day && d.day ≤ daysInMonth d.year d.month

/-- Days since 1970-01-01 (the standard days-from-civil algorithm, using
truncating division as in its original formulation). -/
def daysFromCivil (date : CalDate) : Int :=
  let y : Int := if date.month ≤ 2 then date.year - 1 else date.year
  let era : Int := Int.tdiv (if 0 ≤ y then y else y - 399) 400
  let yoe : Int := y - era * 400
  let mp : Nat := if 2 < date.month then date.month - 3 else date.month + 9
  let doy : Int := ((153 * mp + 2) / 5 + date.day - 1 : Nat)
  let doe : Int := yoe * 365 + Int.tdiv yoe 4 - Int.tdiv yoe 100 + doy
  era * 146097 + doe - 719468

/-- chrono `signed_duration_since(...).num_days()` for whole dates. -/
def daysBetween (a b : CalDate) : Int :=
  daysFromCivil a - daysFromCivil b

/-- Weekday with Monday = 0 .. Sunday = 6 (1970-01-01 was a Thursday). -/
def weekdayMon0 (d : CalDate) : Nat :=
  (((daysFromCivil d + 3) % 7 + 7) % 7).toNat

/-- chrono `Date::succ`: the next calendar day. -/
def succDate (d : CalDate) : CalDate :=
  if d.day < daysInMonth d.year d.month then ⟨d.year, d.month, d.day + 1⟩
  else if d.month < 12 then ⟨d.year, d.month + 1, 1⟩
  else ⟨d.year + 1, 1, 1⟩

/-- ISO weekday, 1 = Monday .. 7 = Sunday. -/
def isoWeekday (d : CalDate) : Nat :=
  weekdayMon0 d + 1

/-- Ordinal day of the year (1-based). -/
def ordinalDay (d : CalDate) : Int :=
  daysFromCivil d - daysFromCivil ⟨d.year, 1, 1⟩ + 1

def isoPYear (y : Int) : Int :=
  (y + Int.tdiv y 4 - Int.tdiv y 100 + Int.tdiv y 400) % 7

def weeksInIsoYear (y : Int) : Int :=
  if isoPYear y = 4 ∨ isoPYear (y - 1) = 3 then 53 else 52

/-- chrono `iso_week()`: the ISO 8601 week-based year and week number. -/
def isoWeek (d : CalDate) : Int × Int :=
  let w : Int := Int.tdiv (ordinalDay d - (isoWeekday d : Int) + 10) 7
  if w < 1 then (d.year - 1, weeksInIsoYear (d.year - 1))
  else if weeksInIsoYear d.year < w then (d.year + 1, 1)
  else (d.year, w)

/-- lib.rs lines 71-103: `week_of_year` — the ISO week, except that a
Sunday is assigned the ISO week of the following day, so that policy weeks
start on Sunday. -/
def week_of_year (d : CalDate) : Int × Int :=
  if weekdayMon0 d = 6 then isoWeek (succDate d) else isoWeek d

/-! ## src/lib.rs — date_from_snapshot and snapshot_automanage -/

/-- Rust `s.splitn(3, c)` (at most three parts; the last keeps any further
separators). -/
def splitn3 (c : Char) (s : CStr) : List CStr :=
  match splitFirst c s with
  | none => [s]
  | some (a, r) =>
    match splitFirst c r with
    | none => [a, r]
    | some (b, r2) => [a, b, r2]

/-- Outcome of lib.rs lines 31-49, `date_from_snapshot`: `notDate` is the
`None` return (snapshot skipped by the caller); `panicked` models
`Local.ymd` panicking on an out-of-range triple (including negative month
or day cast to `u32`); `parsed` is a successful date. -/
inductive DateParse
  | notDate
  | panicked
  | parsed (d : CalDate)
deriving DecidableEq

/-- lib.rs lines 31-49: `date_from_snapshot`. -/
def date_from_snapshot (snap : CStr) : DateParse :=
  match (splitn3 '-' (afterFirst '@' snap)).filterMap parseI32 with
  | [y, m, d] =>
    if m < 0 ∨ d < 0 then .panicked
    else if validDate ⟨y, m.toNat, d.toNat⟩ then .parsed ⟨y, m.toNat, d.toNat⟩
    else .panicked
  | _ => .notDate

/-- lib.rs line 156: the volume part of a snapshot name
(`splitn(2, '@').next().unwrap()`). -/
def volumeOf (snap : CStr) : CStr :=
  match splitFirst '@' snap with
  | some (v, _) => v
  | none => snap

/-- Strict chronological (= lexicographic, for valid dates) order on dates,
the order of the `BTreeMap<Date<Local>, String>`. -/
def dateLtB (a b : CalDate) : Bool :=
  a.year < b.year ||
  (a.year == b.year && (a.month < b.month || (a.month == b.month && a.day < b.day)))

/-- `BTreeMap::insert` into the per-volume date map (overwrites an existing
date entry). -/
def insertDateSnap (d : CalDate) (s : CStr) : List (CalDate × CStr) → List (CalDate × CStr)
  | [] => [(d, s)]
  | (d0, s0) :: rest =>
    if d = d0 then (d0, s) :: rest
    else if dateLtB d d0 then (d, s) :: (d0, s0) :: rest
    else (d0, s0) :: insertDateSnap d s rest

/-- The outer `BTreeMap<String, BTreeMap<Date<Local>, String>>`. -/
abbrev SnapsMap := List (CStr × List (CalDate × CStr))

/-- `snaps_map.entry(volume).or_insert_with(BTreeMap::new).insert(...)`. -/
def insertVolSnap (vol : CStr) (d : CalDate) (s : CStr) : SnapsMap → SnapsMap
  | [] => [(vol, [(d, s)])]
  | (v0, m0) :: rest =>
    if vol = v0 then (v0, insertDateSnap d s m0) :: rest
    else if vol < v0 then (vol, [(d, s)]) :: (v0, m0) :: rest
    else (v0, m0) :: insertVolSnap vol d s rest

/-- lib.rs lines 148-159: group all snapshots by volume and date;
`none` when `date_from_snapshot` panics. -/
def buildSnapsMap (acc : SnapsMap) : List CStr → Option SnapsMap
  | [] => some acc
  | snap :: rest =>
    match date_from_snapshot snap with
    | .panicked => none
    | .notDate => buildSnapsMap acc rest
    | .parsed d => buildSnapsMap (insertVolSnap (volumeOf snap) d snap acc) rest

/-- lib.rs lines 194-200: the first snapshot of the evaluated snapshot's
calendar month (`snaps.iter().find(...)`, iterating in ascending date
order). -/
def firstOfMonthSnap (snaps : List (CalDate × CStr)) (sd : CalDate) :
    Option (CalDate × CStr) :=
  snaps.find? (fun p => p.1.year == sd.year && p.1.month == sd.month)

/-- lib.rs lines 210-215: the first snapshot of the evaluated snapshot's
policy week. -/
def firstOfWeekSnap (snaps : List (CalDate × CStr)) (sd : CalDate) :
    Option (CalDate × CStr) :=
  snaps.find? (fun p => decide (week_of_year p.1 = week_of_year sd))

/-- lib.rs lines 192-223: the deletion decision for one snapshot at a given
rank (`count`).  The reason strings are only printed, so the decision is a
Bool.  The source unwraps the `find` results; they always succeed because
the evaluated snapshot matches its own month and week, and the unreachable
`None` is mapped to `false`. -/
def decideDelete (snaps : List (CalDate × CStr)) (count : Nat) (sd : CalDate)
    (snap : CStr) : Bool :=
  match firstOfMonthSnap snaps sd with
  | none => false
  | some fom =>
    if 60 < count then fom.2 != snap
    else if 30 < count then
      match firstOfWeekSnap snaps sd with
      | none => false
      | some fow => (fow.2 != snap) && (fom.2 != snap)
    else false

def padZeros (w : Nat) (s : CStr) : CStr :=
  List.replicate (w - s.length) '0' ++ s

/-- lib.rs lines 143-146: `format!("{:04}-{:02}-{:02}", ...)` (nonnegative
years; this program only ever formats years parsed from such strings). -/
def formatDate (d : CalDate) : CStr :=
  (if d.year < 0 then '-' :: padZeros 4 (Nat.toDigits 10 (-d.year).toNat)
   else padZeros 4 (Nat.toDigits 10 d.year.toNat)) ++
  '-' :: padZeros 2 (Nat.toDigits 10 d.month) ++
  '-' :: padZeros 2 (Nat.toDigits 10 d.day)

/-- lib.rs lines 167-231: the `for (snap_date, snap) in snaps.iter().rev()`
loop of one volume, carrying the rank counter.  Returns the contributions
to `to_create` and `to_delete` in push order. -/
def amLoop (today : CalDate) (volume : CStr) (snaps : List (CalDate × CStr)) :
    List (CalDate × CStr) → Nat → List CStr × List CStr
  | [], _ => ([], [])
  | (sd, snap) :: rest, count0 =>
    let count1 := count0 + 1
    let isNew := (count1 == 1) && (daysBetween today sd != 0)
    let count2 := if isNew then count1 + 1 else count1
    let next := amLoop today volume snaps rest count2
    ((if isNew then [volume ++ '@' :: formatDate today] else []) ++ next.1,
     (if decideDelete snaps count2 sd snap then [snap] else []) ++ next.2)

/-- One volume's pass of `snapshot_automanage`: `(to_create, to_delete)`
contributions. -/
def automanageVolume (today : CalDate) (volume : CStr)
    (snaps : List (CalDate × CStr)) : List CStr × List CStr :=
  amLoop today volume snaps snaps.reverse 0

/-- Side effects of `snapshot_automanage` relevant to the backend: console
prints versus actual `Zfs::create_snapshots`/`Zfs::destroy_snapshots`
invocations (zfs.rs lines 164-175). -/
inductive Effect
  | printLine (s : CStr)
  | zfsCreateSnapshots (names : List CStr)
  | zfsDestroySnapshots (names : List CStr)

/-- The observable outcome of `ZSnapMgr::snapshot_automanage` when it does
not panic: the compiled worklists, the trace of backend-relevant effects
(the per-snapshot table prints are omitted), and the returned result. -/
structure AutomanageRun where
  toDelete : List CStr
  toCreate : List CStr
  effects : List Effect
  result : Except CStr Unit

/-- lib.rs lines 141-245: `ZSnapMgr::snapshot_automanage`, with the
inventory query already resolved to `allSnaps`.  The two final loops only
print `ZFS DELETE ...` / `ZFS SNAPSHOT ...` lines (the `// TODO` bodies),
and the function then returns the fixed error. -/
def snapshot_automanage (today : CalDate) (allSnaps : List CStr) : Option AutomanageRun :=
  match buildSnapsMap [] allSnaps with
  | none => none
  | some snapsMap =>
    let pairs := snapsMap.map (fun vm => automanageVolume today vm.1 vm.2)
    let toCreate := (pairs.map Prod.fst).flatten
    let toDelete := (pairs.map Prod.snd).flatten
    some { toDelete := toDelete, toCreate := toCreate,
           effects :=
             toDelete.map (fun s => Effect.printLine ("ZFS DELETE ".toList ++ s)) ++
             toCreate.map (fun s => Effect.printLine ("ZFS SNAPSHOT ".toList ++ s)),
           result := .error "snapshot automanage is not yet implemented.".toList }

/-! ### Lemmas about the retention loop -/

/-- The `to_delete` contributions of the loop tail once the rank counter has
passed 1 (no `[NEW]` bump can occur any more, and no `to_create` entry is
pushed). -/
def amTail (snaps : List (CalDate × CStr)) : List (CalDate × CStr) → Nat → List CStr
  | [], _ => []
  | (sd, snap) :: rest, c =>
    (if decideDelete snaps (c + 1) sd snap then [snap] else []) ++ amTail snaps rest (c + 1)

theorem amLoop_eq_amTail (today : CalDate) (volume : CStr)
    (snaps : List (CalDate × CStr)) :
    ∀ (l : List (CalDate × CStr)) (c : Nat), 1 ≤ c →
      amLoop today volume snaps l c = ([], amTail snaps l c) := by
  intro l
  induction l with
  | nil => intro c hc; rfl
  | cons p rest ih =>
    intro c hc
    cases p with
    | mk sd snap =>
      have hbeq : (c + 1 == 1) = false := by
        simp only [beq_eq_false_iff_ne, ne_eq]
        omega
      simp only [amLoop, amTail, hbeq, Bool.false_and, Bool.false_eq_true, if_false,
        ih (c + 1) (by omega), List.nil_append]

theorem decideDelete_le30 (snaps : List (CalDate × CStr)) (count : Nat) (sd : CalDate)
    (snap : CStr) (h : count ≤ 30) :
    decideDelete snaps count sd snap = false := by
  unfold decideDelete
  cases firstOfMonthSnap snaps sd with
  | none => rfl
  | some fom =>
    dsimp only
    rw [if_neg (by omega), if_neg (by omega)]

theorem amTail_append (snaps : List (CalDate × CStr)) :
    ∀ (l : List (CalDate × CStr)) (p : CalDate × CStr) (c : Nat),
      amTail snaps (l ++ [p]) c =
        amTail snaps l c ++
          (if decideDelete snaps (c + l.length + 1) p.1 p.2 then [p.2] else []) := by
  intro l
  induction l with
  | nil =>
    intro p c
    cases p with
    | mk sd snap => simp [amTail]
  | cons q rest ih =>
    intro p c
    cases q with
    | mk sd snap =>
      have harith : c + 1 + rest.length + 1 = c + (rest.length + 1) + 1 := by omega
      simp only [List.cons_append, amTail, List.append_eq, ih p (c + 1), List.append_assoc,
        List.length_cons, harith]

theorem amTail_subset (snaps : List (CalDate × CStr)) :
    ∀ (l : List (CalDate × CStr)) (c : Nat) (x : CStr),
      x ∈ amTail snaps l c → x ∈ l.map Prod.snd := by
  intro l
  induction l with
  | nil => intro c x hx; simp [amTail] at hx
  | cons q rest ih =>
    intro c x hx
    cases q with
    | mk sd snap =>
      simp only [amTail] at hx
      rw [List.mem_append] at hx
      simp only [List.map_cons, List.mem_cons]
      rcases hx with hx | hx
      · by_cases hd : decideDelete snaps (c + 1) sd snap = true
        · rw [if_pos hd] at hx
          simp only [List.mem_singleton] at hx
          exact Or.inl hx
        · rw [if_neg hd] at hx
          simp at hx
      · exact Or.inr (ih (c + 1) x hx)

theorem amTail_le30 (snaps : List (CalDate × CStr)) :
    ∀ (l : List (CalDate × CStr)) (c : Nat), c + l.length ≤ 30 →
      amTail snaps l c = [] := by
  intro l
  induction l with
  | nil => intro c _; rfl
  | cons q rest ih =>
    intro c hc
    cases q with
    | mk sd snap =>
      simp only [List.length_cons] at hc
      simp only [amTail, decideDelete_le30 snaps (c + 1) sd snap (by omega),
        Bool.false_eq_true, if_false, List.nil_append]
      exact ih (c + 1) (by omega)

/-- Unfolding the first loop iteration when the newest snapshot is dated
today: no `[NEW]` entry, no rank bump. -/
theorem amLoop_today_head (today : CalDate) (volume : CStr)
    (snaps : List (CalDate × CStr)) (nm : CStr) (rest : List (CalDate × CStr)) :
    amLoop today volume snaps ((today, nm) :: rest) 0 =
      ([], amTail snaps ((today, nm) :: rest) 0) := by
  have hnew : ((0 + 1 == 1) && (daysBetween today today != 0)) = false := by
    simp [daysBetween]
  simp only [amLoop, amTail, hnew, Bool.false_eq_true, if_false,
    amLoop_eq_amTail today volume snaps rest 1 (le_refl 1), List.nil_append]

/-- C8: for one volume's snapshot map consisting of consecutive daily
snapshots with pairwise-distinct names: (a) with 61 snapshots the newest of
which is dated today, the rank-61 (oldest) snapshot is flagged for deletion
exactly when it is not the first snapshot of its calendar month (it always
is, being the oldest, so it is never flagged); (b) with snapshots occupying
only ranks 1 through 30, nothing is ever flagged for deletion. -/
theorem retention_rank61_and_rank30 (today : CalDate) (volume : CStr)
    (snaps : List (CalDate × CStr))
    (hnodup : nodupB (snaps.map Prod.snd) = true)
    (hdaily : chainB (fun a b => decide (b.1 = succDate a.1)) snaps = true) :
    (∀ (oldest : CalDate × CStr) (nm : CStr),
      snaps.length = 61 →
      snaps.head? = some oldest →
      snaps.getLast? = some (today, nm) →
      ((oldest.2 ∈ (automanageVolume today volume snaps).2) ↔
        (firstOfMonthSnap snaps oldest.1).map Prod.snd ≠ some oldest.2)) ∧
    (snaps.length ≤ 30 →
      (∃ nm, snaps.getLast? = some (today, nm)) →
      (automanageVolume today volume snaps).2 = []) := by
  constructor
  · intro oldest nm hlen hhead hlast
    cases snaps with
    | nil => simp at hhead
    | cons o t =>
      have ho : oldest = o := by
        have h := hhead
        simp only [List.head?_cons, Option.some.injEq] at h
        exact h.symm
      subst ho
      have ht : t ≠ [] := by
        intro he
        rw [he] at hlen
        simp at hlen
      have htr : t.reverse ≠ [] := by
        simpa using ht
      obtain ⟨w, u, hwu⟩ := List.exists_cons_of_ne_nil htr
      have hw : w = (today, nm) := by
        rw [List.getLast?_eq_head?_reverse, List.reverse_cons, hwu] at hlast
        simpa using hlast
      subst hw
      have hulen : u.length = 59 := by
        have h1 : t.length = 60 := by
          simp only [List.length_cons] at hlen
          omega
        have h2 : t.reverse.length = 60 := by rw [List.length_reverse]; exact h1
        rw [hwu] at h2
        simp only [List.length_cons] at h2
        omega
      have hfom : firstOfMonthSnap (oldest :: t) oldest.1 = some oldest := by
        unfold firstOfMonthSnap
        exact List.find?_cons_of_pos _ (by simp)
      have hdd61 : decideDelete (oldest :: t) 61 oldest.1 oldest.2 = false := by
        unfold decideDelete
        rw [hfom]
        dsimp only
        rw [if_pos (by decide)]
        exact bne_self_eq_false oldest.2
      have hTD : (automanageVolume today volume (oldest :: t)).2 =
          amTail (oldest :: t) u 1 := by
        unfold automanageVolume
        rw [show (oldest :: t).reverse = (today, nm) :: (u ++ [oldest]) from by
          rw [List.reverse_cons, hwu]; rfl]
        rw [amLoop_today_head]
        show amTail (oldest :: t) ((today, nm) :: (u ++ [oldest])) 0 = _
        simp only [amTail, decideDelete_le30 (oldest :: t) (0 + 1) today nm (by omega),
          Bool.false_eq_true, if_false, List.nil_append]
        rw [amTail_append (oldest :: t) u oldest 1, hulen]
        rw [show (1 + 59 + 1 : Nat) = 61 from rfl, hdd61]
        simp
      apply iff_of_false
      · intro hmem
        rw [hTD] at hmem
        have hqu := amTail_subset (oldest :: t) u 1 oldest.2 hmem
        rw [List.mem_map] at hqu
        obtain ⟨q, hq, hq2⟩ := hqu
        have hqt : q ∈ t := by
          rw [← List.mem_reverse, hwu]
          exact List.mem_cons_of_mem _ hq
        have hnotin : oldest.2 ∉ t.map Prod.snd := by
          simp only [List.map_cons, nodupB, Bool.and_eq_true] at hnodup
          obtain ⟨h1, -⟩ := hnodup
          simpa using h1
        exact hnotin (hq2 ▸ List.mem_map_of_mem Prod.snd hqt)
      · rw [hfom]
        intro hne
        exact hne rfl
  · intro hlen hex
    obtain ⟨nm, hlast⟩ := hex
    cases hrev : snaps.reverse with
    | nil =>
      unfold automanageVolume
      rw [hrev]
      rfl
    | cons w rev' =>
      have hw : w = (today, nm) := by
        rw [List.getLast?_eq_head?_reverse, hrev] at hlast
        simpa using hlast
      subst hw
      have hrlen : rev'.length + 1 ≤ 30 := by
        have : snaps.reverse.length = snaps.length := List.length_reverse snaps
        rw [hrev] at this
        simp only [List.length_cons] at this
        omega
      unfold automanageVolume
      rw [hrev, amLoop_today_head]
      show amTail snaps ((today, nm) :: rev') 0 = []
      exact amTail_le30 snaps ((today, nm) :: rev') 0 (by simp; omega)

/-- `n` consecutive daily snapshots of one volume starting at `d`
(ascending, as the per-volume BTreeMap yields them). -/
def dailySnaps (vol : CStr) (d : CalDate) : Nat → List (CalDate × CStr)
  | 0 => []
  | n + 1 => (d, vol ++ '@' :: formatDate d) :: dailySnaps vol (succDate d) n

/-- C8 witness: 61 daily snapshots 2026-08-13..2026-10-12 (today), and 30
daily snapshots 2026-09-13..2026-10-12. -/
theorem retention_rank61_and_rank30_witness :
    (("tank@2026-08-13".toList ∈
        (automanageVolume ⟨2026, 10, 12⟩ "tank".toList
          (dailySnaps "tank".toList ⟨2026, 8, 13⟩ 61)).2) ↔
      (firstOfMonthSnap (dailySnaps "tank".toList ⟨2026, 8, 13⟩ 61)
          ⟨2026, 8, 13⟩).map Prod.snd ≠ some "tank@2026-08-13".toList) ∧
    (automanageVolume ⟨2026, 10, 12⟩ "tank".toList
        (dailySnaps "tank".toList ⟨2026, 9, 13⟩ 30)).2 = [] := by
  constructor
  · exact (retention_rank61_and_rank30 ⟨2026, 10, 12⟩ "tank".toList
      (dailySnaps "tank".toList ⟨2026, 8, 13⟩ 61) (by decide) (by decide)).1
      (⟨2026, 8, 13⟩, "tank@2026-08-13".toList) "tank@2026-10-12".toList
      (by decide) (by decide) (by decide)
  · exact (retention_rank61_and_rank30 ⟨2026, 10, 12⟩ "tank".toList
      (dailySnaps "tank".toList ⟨2026, 9, 13⟩ 30) (by decide) (by decide)).2
      (by decide) ⟨"tank@2026-10-12".toList, by decide⟩

/-- C10: whenever `snapshot_automanage` completes its policy computation,
its effect trace contains no `create_snapshots` and no `destroy_snapshots`
backend call — the compiled worklists are only printed — and the function
still returns an error. -/
theorem snapshot_automanage_no_backend_mutation (today : CalDate) (allSnaps : List CStr)
    (run : AutomanageRun) (h : snapshot_automanage today allSnaps = some run) :
    (∀ e ∈ run.effects, (∀ names, e ≠ Effect.zfsCreateSnapshots names) ∧
      (∀ names, e ≠ Effect.zfsDestroySnapshots names)) ∧
    run.result = Except.error "snapshot automanage is not yet implemented.".toList := by
  unfold snapshot_automanage at h
  cases hb : buildSnapsMap [] allSnaps with
  | none => rw [hb] at h; exact absurd h (by simp)
  | some m =>
    rw [hb] at h
    simp only [Option.some.injEq] at h
    subst h
    constructor
    · intro e he
      dsimp only at he
      simp only [List.mem_append, List.mem_map] at he
      rcases he with he | he
      · obtain ⟨s, hs, rfl⟩ := he
        exact ⟨fun names hne => Effect.noConfusion hne, fun names hne => Effect.noConfusion hne⟩
      · obtain ⟨s, hs, rfl⟩ := he
        exact ⟨fun names hne => Effect.noConfusion hne, fun names hne => Effect.noConfusion hne⟩
    · rfl

/-- C10 witness: one volume with one snapshot dated today — the run prints
nothing, calls no backend mutation, and returns the fixed error. -/
theorem snapshot_automanage_no_backend_mutation_witness :
    snapshot_automanage ⟨2024, 1, 2⟩ ["tank@2024-01-02".toList] =
      some { toDelete := [], toCreate := [], effects := [],
             result := Except.error "snapshot automanage is not yet implemented.".toList } ∧
    ((∀ e ∈ ({ toDelete := [], toCreate := [], effects := [],
               result := Except.error "snapshot automanage is not yet implemented.".toList } :
              AutomanageRun).effects,
        (∀ names, e ≠ Effect.zfsCreateSnapshots names) ∧
        (∀ names, e ≠ Effect.zfsDestroySnapshots names)) ∧
      ({ toDelete := [], toCreate := [], effects := [],
         result := Except.error "snapshot automanage is not yet implemented.".toList } :
        AutomanageRun).result =
        Except.error "snapshot automanage is not yet implemented.".toList) :=
  ⟨rfl, snapshot_automanage_no_backend_mutation ⟨2024, 1, 2⟩ ["tank@2024-01-02".toList] _ rfl⟩

end ZSnap
